import Mathlib

/- Verification of the KRA invoice batch-checker client.

The logic under verification lives in the page script of `test.html`
(functions `parseInvoiceNumbers`, `checkInvoices`, `displayResults`,
`testConnection`, `exportJSON`, `exportCSV`) and in `check_invoice.js`.
JavaScript strings are modelled as lists of characters (`JStr`), JSON
values as the inductive `Json`, and the stateful page flow as explicit
state-passing functions. -/

/-- A JavaScript string, modelled as its list of characters. -/
abbrev JStr := List Char

/-- Convert a Lean string literal into the character-list model. -/
def jstr (s : String) : JStr := s.toList

/-- Characters stripped by JavaScript `String.prototype.trim`: the
ECMAScript WhiteSpace and LineTerminator sets — tab, line feed,
vertical tab, form feed, carriage return, space, no-break space
(U+00A0), zero-width no-break space (U+FEFF), the line and paragraph
separators (U+2028, U+2029), and the Unicode space-separator category
(U+1680, U+2000 through U+200A, U+202F, U+205F, U+3000). -/
def jsWs (c : Char) : Bool :=
  c == '\t' || c == '\n' || c == Char.ofNat 11 || c == Char.ofNat 12 ||
    c == '\r' || c == ' ' || c == Char.ofNat 0xA0 || c == Char.ofNat 0xFEFF ||
    c == Char.ofNat 0x2028 || c == Char.ofNat 0x2029 ||
    c == Char.ofNat 0x1680 || (0x2000 ≤ c.toNat && c.toNat ≤ 0x200A) ||
    c == Char.ofNat 0x202F || c == Char.ofNat 0x205F || c == Char.ofNat 0x3000

/-- JavaScript `trim`: drop leading and trailing whitespace. -/
def jsTrim (s : JStr) : JStr :=
  ((s.dropWhile jsWs).reverse.dropWhile jsWs).reverse

/-- Embedding of `parseInvoiceNumbers` from `test.html`: trim the raw
textarea text, split on newlines, trim each line, split comma-containing
lines on commas (trimming each piece and dropping empty pieces), collect
in order, and finally drop empty entries (`filter(Boolean)`). -/
def parseInvoiceNumbers (input : JStr) : List JStr :=
  let lines := ((jsTrim input).splitOn '\n').map jsTrim
  let numbers := lines.foldl (fun acc line =>
    if line.isEmpty then acc
    else if line.contains ',' then
      acc ++ ((line.splitOn ',').map jsTrim).filter (fun n => !n.isEmpty)
    else acc ++ [line]) []
  numbers.filter (fun n => !n.isEmpty)

/-- A JSON value as produced by `response.json()`.  Per the external
interface (§6 of the design) every field of the verification envelope is
a string, an array, or an object, so the model carries strings, booleans,
null, arrays and objects. -/
inductive Json where
  | str (s : JStr)
  | bool (b : Bool)
  | null
  | arr (items : List Json)
  | obj (fields : List (JStr × Json))

mutual

/-- Structural equality test for `Json` values. -/
def jsonBeq : Json → Json → Bool
  | .str a, .str b => a == b
  | .bool a, .bool b => a == b
  | .null, .null => true
  | .arr a, .arr b => jsonItemsBeq a b
  | .obj a, .obj b => jsonFieldsBeq a b
  | _, _ => false

/-- Structural equality test for lists of `Json` values. -/
def jsonItemsBeq : List Json → List Json → Bool
  | [], [] => true
  | x :: xs, y :: ys => jsonBeq x y && jsonItemsBeq xs ys
  | _, _ => false

/-- Structural equality test for object field lists. -/
def jsonFieldsBeq : List (JStr × Json) → List (JStr × Json) → Bool
  | [], [] => true
  | (k1, v1) :: xs, (k2, v2) :: ys => k1 == k2 && jsonBeq v1 v2 && jsonFieldsBeq xs ys
  | _, _ => false

end

mutual

/-- Decidable equality for `Json` values. -/
def jsonDecEq : (a b : Json) → Decidable (a = b)
  | .str a, .str b =>
    match decEq a b with
    | isTrue h => isTrue (by rw [h])
    | isFalse h => isFalse (by intro hh; injection hh; contradiction)
  | .bool a, .bool b =>
    match decEq a b with
    | isTrue h => isTrue (by rw [h])
    | isFalse h => isFalse (by intro hh; injection hh; contradiction)
  | .null, .null => isTrue rfl
  | .arr a, .arr b =>
    match jsonItemsDecEq a b with
    | isTrue h => isTrue (by rw [h])
    | isFalse h => isFalse (by intro hh; injection hh; contradiction)
  | .obj a, .obj b =>
    match jsonFieldsDecEq a b with
    | isTrue h => isTrue (by rw [h])
    | isFalse h => isFalse (by intro hh; injection hh; contradiction)
  | .str _, .bool _ => isFalse (by intro h; exact Json.noConfusion h)
  | .str _, .null => isFalse (by intro h; exact Json.noConfusion h)
  | .str _, .arr _ => isFalse (by intro h; exact Json.noConfusion h)
  | .str _, .obj _ => isFalse (by intro h; exact Json.noConfusion h)
  | .bool _, .str _ => isFalse (by intro h; exact Json.noConfusion h)
  | .bool _, .null => isFalse (by intro h; exact Json.noConfusion h)
  | .bool _, .arr _ => isFalse (by intro h; exact Json.noConfusion h)
  | .bool _, .obj _ => isFalse (by intro h; exact Json.noConfusion h)
  | .null, .str _ => isFalse (by intro h; exact Json.noConfusion h)
  | .null, .bool _ => isFalse (by intro h; exact Json.noConfusion h)
  | .null, .arr _ => isFalse (by intro h; exact Json.noConfusion h)
  | .null, .obj _ => isFalse (by intro h; exact Json.noConfusion h)
  | .arr _, .str _ => isFalse (by intro h; exact Json.noConfusion h)
  | .arr _, .bool _ => isFalse (by intro h; exact Json.noConfusion h)
  | .arr _, .null => isFalse (by intro h; exact Json.noConfusion h)
  | .arr _, .obj _ => isFalse (by intro h; exact Json.noConfusion h)
  | .obj _, .str _ => isFalse (by intro h; exact Json.noConfusion h)
  | .obj _, .bool _ => isFalse (by intro h; exact Json.noConfusion h)
  | .obj _, .null => isFalse (by intro h; exact Json.noConfusion h)
  | .obj _, .arr _ => isFalse (by intro h; exact Json.noConfusion h)

/-- Decidable equality for lists of `Json` values. -/
def jsonItemsDecEq : (a b : List Json) → Decidable (a = b)
  | [], [] => isTrue rfl
  | [], _ :: _ => isFalse (by intro h; exact List.noConfusion h)
  | _ :: _, [] => isFalse (by intro h; exact List.noConfusion h)
  | x :: xs, y :: ys =>
    match jsonDecEq x y with
    | isFalse h => isFalse (by intro hh; injection hh; contradiction)
    | isTrue h1 =>
      match jsonItemsDecEq xs ys with
      | isTrue h2 => isTrue (by rw [h1, h2])
      | isFalse h => isFalse (by intro hh; injection hh; contradiction)

/-- Decidable equality for object field lists. -/
def jsonFieldsDecEq : (a b : List (JStr × Json)) → Decidable (a = b)
  | [], [] => isTrue rfl
  | [], _ :: _ => isFalse (by intro h; exact List.noConfusion h)
  | _ :: _, [] => isFalse (by intro h; exact List.noConfusion h)
  | (k1, v1) :: xs, (k2, v2) :: ys =>
    match decEq k1 k2 with
    | isFalse h => isFalse (by intro hh; injection hh with hh1 hh2; injection hh1; contradiction)
    | isTrue e1 =>
      match jsonDecEq v1 v2 with
      | isFalse h => isFalse (by intro hh; injection hh with hh1 hh2; injection hh1; contradiction)
      | isTrue e2 =>
        match jsonFieldsDecEq xs ys with
        | isTrue e3 => isTrue (by rw [e1, e2, e3])
        | isFalse h => isFalse (by intro hh; injection hh; contradiction)

end

instance : DecidableEq Json := jsonDecEq

deriving instance DecidableEq for Except

/-- Property access `o[k]` on a JavaScript object, first match on the key
(objects produced by `JSON.parse` have unique keys). -/
def objLookup (k : JStr) (fields : List (JStr × Json)) : Option Json :=
  (fields.find? (fun kv => kv.1 == k)).map (fun kv => kv.2)

/-- Property access `data.results` on an arbitrary value: `undefined`
(here `none`) unless the value is an object carrying the key. -/
def resultsField (data : Json) : Option Json :=
  match data with
  | .obj fs => objLookup (jstr "results") fs
  | _ => none

/-- The test `r.status === 'success'` used by `displayResults` on one
element of `results`. -/
def isSuccessResult (r : Json) : Bool :=
  match r with
  | .obj fs =>
    match objLookup (jstr "status") fs with
    | some (.str s) => s == jstr "success"
    | _ => false
  | _ => false

/-- The summary counters rendered by `displayResults`:
`results.length`, the number of elements with `status === 'success'`,
and their difference. -/
structure Summary where
  total : Nat
  successCount : Nat
  errorCount : Nat
deriving DecidableEq

/-- Compute the summary exactly as `displayResults` does. -/
def summarize (results : List Json) : Summary :=
  { total := results.length
    successCount := (results.filter isSuccessResult).length
    errorCount := results.length - (results.filter isSuccessResult).length }

/-- The typed failure of reconciliation (`InvalidShapeError` in the
design): the payload has no `results` key, or its value is not an
array. -/
inductive ReconcileError where
  | invalidShape
deriving DecidableEq

/-- Embedding of the validation and summary part of `displayResults`:
`if (!data.results || !Array.isArray(data.results))` show the error
`Invalid response format from API` and stop; otherwise count. The guard
passes exactly when the `results` field holds an array (an array is
always truthy in JavaScript, and every non-array value either is falsy
or fails `Array.isArray`). -/
def displayReconcile (data : Json) : Except ReconcileError Summary :=
  match resultsField data with
  | some (.arr results) => .ok (summarize results)
  | _ => .error .invalidShape

/-- Outcome of one `fetch` call as observed by the page: either the
promise rejects (network failure or `AbortSignal` timeout) with an error
message, or a response arrives with a status code, a body text, and,
when the body is well-formed JSON, its parsed value. -/
inductive FetchOutcome where
  | transportFail (message : JStr)
  | response (status : Nat) (bodyText : JStr) (jsonBody : Option Json)
deriving DecidableEq

/-- JavaScript `response.ok`: status in the 2xx range. -/
def responseOk (status : Nat) : Bool := 200 ≤ status && status < 300

/-- The typed failures of the verification call (§7 taxonomy): transport
or timeout failure, non-2xx HTTP status carrying the status code and the
body text, or a body that is not well-formed JSON. -/
inductive VerifyError where
  | transport (message : JStr)
  | remoteHttp (statusCode : Nat) (bodyText : JStr)
  | malformedResponse
deriving DecidableEq

/-- Embedding of the transport part of `checkInvoices` (`test.html`) and
`checkInvoice` (`check_invoice.js`): a rejected fetch propagates, a
non-ok response throws an error carrying `response.status` and the body
text (`API returned status N: body`), and otherwise the JSON body is
returned. -/
def verify (out : FetchOutcome) : Except VerifyError Json :=
  match out with
  | .transportFail m => .error (.transport m)
  | .response status body jsonB =>
    if responseOk status then
      match jsonB with
      | some j => .ok j
      | none => .error .malformedResponse
    else .error (.remoteHttp status body)

/-- One batch run issues exactly one `fetch`: the body of
`checkInvoices` contains a single `await fetch(...)` and no retry loop.
The run is modelled against a supply of outcomes; the second component
records how many fetches the run consumed. -/
def verifyWithTrace (fetches : Nat → FetchOutcome) : Except VerifyError Json × Nat :=
  (verify (fetches 0), 1)

/-- Decimal rendering of a number interpolated into a template
literal. -/
def natChars (n : Nat) : JStr := (toString n).toList

/-- Render the caught error's `message` the way the `catch` block of
`checkInvoices` displays it. -/
def renderVerifyError (e : VerifyError) : JStr :=
  match e with
  | .transport m => jstr "Error: " ++ m
  | .remoteHttp status body =>
    jstr "Error: API returned status " ++ natChars status ++ jstr ": " ++ body
  | .malformedResponse => jstr "Error: malformed JSON response body"

/-- The JavaScript object literal
`{ timestamp, apiUrl, invoices_requested, ...data }`: keys of `data`
override the three locally computed fields in place, and keys new to
`data` are appended in order. -/
def mergeSpread (base extra : List (JStr × Json)) : List (JStr × Json) :=
  base.map (fun kv => (kv.1, (objLookup kv.1 extra).getD kv.2))
  ++ extra.filter (fun kv => (objLookup kv.1 base).isNone)

/-- Spreading `...data` contributes the fields of an object and nothing
for the non-object payloads relevant here. -/
def jsonObjFields (j : Json) : List (JStr × Json) :=
  match j with
  | .obj fs => fs
  | _ => []

/-- The value assigned to the global `currentResults` by
`checkInvoices` after a successful parse. -/
def buildStoredReport (ts apiUrl : JStr) (ids : List JStr) (payload : Json) :
    List (JStr × Json) :=
  mergeSpread
    [(jstr "timestamp", .str ts), (jstr "apiUrl", .str apiUrl),
     (jstr "invoices_requested", .arr (ids.map .str))]
    (jsonObjFields payload)

/-- What the page shows at the end of one run of `checkInvoices`. -/
inductive RunOutcome where
  | errorShown (message : JStr)
  | invalidShapeShown
  | resultsShown (s : Summary)
deriving DecidableEq

/-- Embedding of one run of `checkInvoices` after the identifiers have
been parsed: on any transport, HTTP, or JSON-parse failure the `catch`
block shows the message and the stored report is untouched; on a
successful parse `currentResults` is assigned the merged object and only
then does `displayResults` validate the payload shape. -/
def checkInvoicesStep (prev : Option (List (JStr × Json))) (ids : List JStr)
    (apiUrl ts : JStr) (out : FetchOutcome) :
    Option (List (JStr × Json)) × RunOutcome :=
  match verify out with
  | .error e => (prev, .errorShown (renderVerifyError e))
  | .ok payload =>
    let stored := buildStoredReport ts apiUrl ids payload
    match displayReconcile payload with
    | .error _ => (some stored, .invalidShapeShown)
    | .ok s => (some stored, .resultsShown s)

/-- Transient connectivity state shown by `testConnection`. -/
structure EndpointHealth where
  reachable : Bool
  detail : JStr
deriving DecidableEq

/-- Embedding of `testConnection` (`test.html`): a 2xx response from the
derived `/docs` URL marks the endpoint connected; any other status or a
rejected fetch leaves the indicator disconnected and reports a
descriptive status line.  Every branch is covered by the function, so the
probe never propagates an exception. -/
def probe (out : FetchOutcome) : EndpointHealth :=
  match out with
  | .transportFail m => ⟨false, jstr "Connection failed: " ++ m⟩
  | .response status _ _ =>
    if responseOk status then ⟨true, jstr "Connected to API successfully"⟩
    else ⟨false, jstr "API endpoint exists but returned status " ++ natChars status⟩

/-- The double-quote character. -/
def dqChar : Char := Char.ofNat 34

/-- The apostrophe character prepended by `exportCSV` to two columns. -/
def aposChar : Char := Char.ofNat 39

/-- Wrap a value in double quotes the way `exportCSV` builds most cells:
the template literal quotes the interpolated value verbatim, without
doubling any quote character already inside it. -/
def csvWrap (s : JStr) : JStr := dqChar :: s ++ [dqChar]

/-- Read a string-valued own property of a result object, rendering a
missing value as the empty string (the `|| ''` fallbacks in
`exportCSV`). -/
def resField (r : Json) (key : String) : JStr :=
  match r with
  | .obj fs =>
    match objLookup (jstr key) fs with
    | some (.str v) => v
    | _ => []
  | _ => []

/-- Read a field of `result.data`, with the `result.data ? ... : ''`
guard of `exportCSV`: empty when `data` is absent or the field is
missing. -/
def dataField (r : Json) (key : String) : JStr :=
  match r with
  | .obj fs =>
    match objLookup (jstr "data") fs with
    | some (.obj dfs) =>
      match objLookup (jstr key) dfs with
      | some (.str v) => v
      | _ => []
    | _ => []
  | _ => []

/-- One data row emitted by `exportCSV`, joined on commas.  The first
cell is quoted with a leading apostrophe inside the quotes; the fourth
cell (`Control Unit Invoice Number`) is emitted as a bare apostrophe
followed by the raw value, with no surrounding quotes; every other cell
is wrapped in quotes without escaping embedded quote characters. -/
def csvRow (r : Json) : JStr :=
  List.intercalate (jstr ",")
    [ csvWrap (aposChar :: resField r "invoice_number"),
      csvWrap (resField r "status"),
      csvWrap (resField r "error"),
      aposChar :: dataField r "Control Unit Invoice Number",
      csvWrap (dataField r "Trader System Invoice No"),
      csvWrap (dataField r "Invoice Date"),
      csvWrap (dataField r "Total Taxable Amount"),
      csvWrap (dataField r "Total Tax Amount"),
      csvWrap (dataField r "Total Invoice Amount"),
      csvWrap (dataField r "Supplier Name") ]

/-- The fixed header row of `exportCSV`. -/
def csvColumns : List JStr :=
  [jstr "Invoice Number", jstr "Status", jstr "Error",
   jstr "Control Unit Invoice Number", jstr "Trader System Invoice No",
   jstr "Invoice Date", jstr "Total Taxable Amount",
   jstr "Total Tax Amount", jstr "Total Invoice Amount",
   jstr "Supplier Name"]

/-- The full delimited-form export: header line then one line per
result. -/
def csvContent (results : List Json) : JStr :=
  List.intercalate (jstr ",") csvColumns ++ '\n' ::
    (results.map (fun r => csvRow r ++ ['\n'])).flatten

/-- Modelled from the spec: the body scan of one quoted field in a
standard delimited-text parser (the spec's round-trip check, §8).  A
doubled quote is an escaped quote character; the closing quote ends the
field at the following comma or record end.  No such parser ships in the
repository, so it is reconstructed from the spec's words. -/
def csvQuotedBody (acc : JStr) : JStr → JStr × Option JStr
  | [] => (acc.reverse, none)
  | c :: rest =>
    if c = dqChar then
      match rest with
      | [] => (acc.reverse, none)
      | c2 :: rest2 =>
        if c2 = dqChar then csvQuotedBody (dqChar :: acc) rest2
        else if c2 = ',' then (acc.reverse, some rest2)
        else (acc.reverse, some (c2 :: rest2))
    else csvQuotedBody (c :: acc) rest

/-- Modelled from the spec: scan of one unquoted field in a standard
delimited-text parser — the field extends to the next separator. -/
def csvUnquoted (acc : JStr) : JStr → JStr × Option JStr
  | [] => (acc.reverse, none)
  | c :: rest =>
    if c = ',' then (acc.reverse, some rest)
    else csvUnquoted (c :: acc) rest

/-- Modelled from the spec: split one record of delimited text into its
fields, a quoted field when it opens with a quote character and an
unquoted field otherwise. -/
def csvFieldsGo (fuel : Nat) (s : JStr) : List JStr :=
  match fuel with
  | 0 => []
  | fuel + 1 =>
    let p :=
      match s with
      | c :: rest => if c = dqChar then csvQuotedBody [] rest else csvUnquoted [] s
      | [] => ([], none)
    match p.2 with
    | none => [p.1]
    | some rest => p.1 :: csvFieldsGo fuel rest

/-- Modelled from the spec: parse one record of delimited text with a
standard delimited-text parser, returning its fields. -/
def csvParseLine (line : JStr) : List JStr := csvFieldsGo (line.length + 1) line

/-- A sample successful result whose `Control Unit Invoice Number`
contains an embedded separator. -/
def cuiCommaResult : Json :=
  Json.obj
    [(jstr "invoice_number", Json.str (jstr "INV1")),
     (jstr "status", Json.str (jstr "success")),
     (jstr "data", Json.obj
       [(jstr "Control Unit Invoice Number", Json.str (jstr "12,34")),
        (jstr "Trader System Invoice No", Json.str (jstr "TSI")),
        (jstr "Invoice Date", Json.str (jstr "2024-01-01")),
        (jstr "Total Taxable Amount", Json.str (jstr "100")),
        (jstr "Total Tax Amount", Json.str (jstr "16")),
        (jstr "Total Invoice Amount", Json.str (jstr "116")),
        (jstr "Supplier Name", Json.str (jstr "ACME"))])]

/-- A sample successful result whose `Supplier Name` contains a literal
quote character. -/
def supplierQuoteResult : Json :=
  Json.obj
    [(jstr "invoice_number", Json.str (jstr "INV2")),
     (jstr "status", Json.str (jstr "success")),
     (jstr "data", Json.obj
       [(jstr "Control Unit Invoice Number", Json.str (jstr "999")),
        (jstr "Trader System Invoice No", Json.str (jstr "TSI")),
        (jstr "Invoice Date", Json.str (jstr "2024-01-01")),
        (jstr "Total Taxable Amount", Json.str (jstr "100")),
        (jstr "Total Tax Amount", Json.str (jstr "16")),
        (jstr "Total Invoice Amount", Json.str (jstr "116")),
        (jstr "Supplier Name", Json.str (jstr "ACME \"K\" LTD"))])]

/-- The opening-brace character. -/
def lbChar : Char := Char.ofNat 123

/-- The closing-brace character. -/
def rbChar : Char := Char.ofNat 125

/-- The backslash character. -/
def bsChar : Char := Char.ofNat 92

/-- A run of space characters, used for the two-space indentation of
`JSON.stringify(value, null, 2)`. -/
def spaces : Nat → JStr
  | 0 => []
  | n + 1 => ' ' :: spaces n

/-- The hexadecimal digit character for a value below sixteen. -/
def hexDigitChar (n : Nat) : Char :=
  Char.ofNat (if n < 10 then 48 + n else 87 + n)

/-- Modelled from the spec: the string-escaping discipline of the
platform JSON serializer used by `exportJSON` (`JSON.stringify` is a
platform builtin, absent from the repository sources).  Quote and
backslash characters are escaped with a backslash, control characters as
a four-digit hexadecimal escape, and everything else is emitted
verbatim. -/
def escapeChar (c : Char) : JStr :=
  if c = dqChar then [bsChar, dqChar]
  else if c = bsChar then [bsChar, bsChar]
  else if c.toNat < 32 then
    [bsChar, 'u', '0', '0', hexDigitChar (c.toNat / 16), hexDigitChar (c.toNat % 16)]
  else [c]

/-- Escape a whole string body. -/
def escapeStr (s : JStr) : JStr := (s.map escapeChar).flatten

/-- Serialize a string value, quotes included. -/
def printStr (s : JStr) : JStr := dqChar :: escapeStr s ++ [dqChar]

mutual

/-- Modelled from the spec: `JSON.stringify(v, null, 2)` — stable key
order (insertion order) and two-space human-readable indentation, as the
structured-form export requires. -/
def printJson (ind : Nat) : Json → JStr
  | .str s => printStr s
  | .bool true => jstr "true"
  | .bool false => jstr "false"
  | .null => jstr "null"
  | .arr [] => jstr "[]"
  | .arr (x :: xs) =>
    '[' :: '\n' :: (printArrItems (ind + 2) x xs ++ '\n' :: (spaces ind ++ [']']))
  | .obj [] => [lbChar, rbChar]
  | .obj (kv :: kvs) =>
    lbChar :: '\n' :: (printObjItems (ind + 2) kv kvs ++ '\n' :: (spaces ind ++ [rbChar]))
termination_by v => sizeOf v

/-- Serialize the comma-and-newline separated items of a non-empty
array, each on its own indented line. -/
def printArrItems (ind : Nat) (x : Json) (xs : List Json) : JStr :=
  match xs with
  | [] => spaces ind ++ printJson ind x
  | y :: ys =>
    spaces ind ++ (printJson ind x ++ ',' :: '\n' :: printArrItems ind y ys)
termination_by sizeOf x + sizeOf xs

/-- Serialize the members of a non-empty object, each on its own
indented line as `"key": value`. -/
def printObjItems (ind : Nat) (kv : JStr × Json) (kvs : List (JStr × Json)) : JStr :=
  match kv, kvs with
  | (k, v), [] => spaces ind ++ (printStr k ++ ':' :: ' ' :: printJson ind v)
  | (k, v), y :: ys =>
    spaces ind ++
      (printStr k ++ ':' :: ' ' :: (printJson ind v ++ ',' :: '\n' :: printObjItems ind y ys))
termination_by sizeOf kv + sizeOf kvs

end

/-- The insignificant whitespace of the JSON grammar: space, tab, line
feed, and carriage return — the only characters the platform JSON
reader skips between tokens. -/
def jsonWs (c : Char) : Bool :=
  c == ' ' || c == '\t' || c == '\n' || c == '\r'

/-- Skip leading whitespace between JSON tokens. -/
def skipWs (s : JStr) : JStr := s.dropWhile jsonWs

/-- The numeric value of a hexadecimal digit character, if any. -/
def hexVal (c : Char) : Option Nat :=
  if 48 ≤ c.toNat ∧ c.toNat ≤ 57 then some (c.toNat - 48)
  else if 97 ≤ c.toNat ∧ c.toNat ≤ 102 then some (c.toNat - 87)
  else if 65 ≤ c.toNat ∧ c.toNat ≤ 70 then some (c.toNat - 55)
  else none

/-- Modelled from the spec: the string-body scan of the platform JSON
reader (`JSON.parse`, a platform builtin absent from the sources),
restricted to the escapes the serializer emits.  Returns the decoded
string and the input remaining after the closing quote. -/
def parseStrBody : JStr → Option (JStr × JStr)
  | [] => none
  | c :: rest =>
    if c = dqChar then some ([], rest)
    else if c = bsChar then
      match rest with
      | [] => none
      | e :: rest2 =>
        if e = dqChar then (parseStrBody rest2).map (fun p => (dqChar :: p.1, p.2))
        else if e = bsChar then (parseStrBody rest2).map (fun p => (bsChar :: p.1, p.2))
        else if e = 'u' then
          match rest2 with
          | h1 :: h2 :: h3 :: h4 :: rest3 =>
            match hexVal h1, hexVal h2, hexVal h3, hexVal h4 with
            | some a, some b, some c2, some d =>
              (parseStrBody rest3).map
                (fun p => (Char.ofNat (((a * 16 + b) * 16 + c2) * 16 + d) :: p.1, p.2))
            | _, _, _, _ => none
          | _ => none
        else none
    else (parseStrBody rest).map (fun p => (c :: p.1, p.2))

mutual

/-- Modelled from the spec: the value grammar of the platform JSON
reader, fuelled to bound the nesting recursion.  Parses one value and
returns the remaining input. -/
def parseValue : Nat → JStr → Option (Json × JStr)
  | 0, _ => none
  | fuel + 1, s =>
    match skipWs s with
    | [] => none
    | c :: rest =>
      if c = dqChar then (parseStrBody rest).map (fun p => (Json.str p.1, p.2))
      else if c = '[' then
        match skipWs rest with
        | c2 :: rest2 =>
          if c2 = ']' then some (Json.arr [], rest2)
          else (parseArrItems fuel rest).map (fun p => (Json.arr p.1, p.2))
        | [] => none
      else if c = lbChar then
        match skipWs rest with
        | c2 :: rest2 =>
          if c2 = rbChar then some (Json.obj [], rest2)
          else (parseObjItems fuel rest).map (fun p => (Json.obj p.1, p.2))
        | [] => none
      else
        match c :: rest with
        | 't' :: 'r' :: 'u' :: 'e' :: r => some (Json.bool true, r)
        | 'f' :: 'a' :: 'l' :: 's' :: 'e' :: r => some (Json.bool false, r)
        | 'n' :: 'u' :: 'l' :: 'l' :: r => some (Json.null, r)
        | _ => none

/-- Parse the one-or-more comma-separated items of a non-empty array,
up to and including the closing bracket. -/
def parseArrItems : Nat → JStr → Option (List Json × JStr)
  | 0, _ => none
  | fuel + 1, s =>
    match parseValue fuel s with
    | none => none
    | some (v, r) =>
      match skipWs r with
      | c :: r2 =>
        if c = ',' then
          match parseArrItems fuel r2 with
          | none => none
          | some (vs, r3) => some (v :: vs, r3)
        else if c = ']' then some ([v], r2)
        else none
      | [] => none

/-- Parse the one-or-more `"key": value` members of a non-empty object,
up to and including the closing brace. -/
def parseObjItems : Nat → JStr → Option (List (JStr × Json) × JStr)
  | 0, _ => none
  | fuel + 1, s =>
    match skipWs s with
    | c :: rest =>
      if c = dqChar then
        match parseStrBody rest with
        | none => none
        | some (k, r) =>
          match skipWs r with
          | c2 :: r2 =>
            if c2 = ':' then
              match parseValue fuel r2 with
              | none => none
              | some (v, r3) =>
                match skipWs r3 with
                | c3 :: r4 =>
                  if c3 = ',' then
                    match parseObjItems fuel r4 with
                    | none => none
                    | some (kvs, r5) => some ((k, v) :: kvs, r5)
                  else if c3 = rbChar then some ([(k, v)], r4)
                  else none
                | [] => none
            else none
          | [] => none
      else none
    | [] => none

end

/-- Modelled from the spec: parse a complete serialized document —
one value followed only by whitespace.  The fuel exceeds any nesting
depth the input can encode. -/
def parseJson (s : JStr) : Option Json :=
  match parseValue (2 * s.length + 2) s with
  | some (v, r) =>
    match skipWs r with
    | [] => some v
    | _ => none
  | none => none

/-- One outcome per requested identifier (§3 of the design): either a
successful lookup with its mapping of named string fields, or a failure
with a human-readable message. -/
inductive InvoiceResult where
  | success (invoice_number : JStr) (data : List (JStr × JStr))
  | failure (invoice_number : JStr) (message : JStr)
deriving DecidableEq

/-- The aggregate of one verification run, as serialized by
`exportJSON`: the run timestamp, the endpoint used, the ordered
identifier list sent, and the per-identifier results. -/
structure BatchReport where
  timestamp : JStr
  apiUrl : JStr
  invoices_requested : List JStr
  results : List InvoiceResult
deriving DecidableEq

/-- Encode one result in the remote envelope shape (§6). -/
def invoiceResultToJson : InvoiceResult → Json
  | .success n data =>
    .obj [(jstr "invoice_number", .str n),
          (jstr "status", .str (jstr "success")),
          (jstr "data", .obj (data.map (fun kv => (kv.1, Json.str kv.2))))]
  | .failure n msg =>
    .obj [(jstr "invoice_number", .str n),
          (jstr "status", .str (jstr "error")),
          (jstr "error", .str msg)]

/-- Encode a whole report in the shape `exportJSON` serializes. -/
def reportToJson (r : BatchReport) : Json :=
  .obj [(jstr "timestamp", .str r.timestamp),
        (jstr "apiUrl", .str r.apiUrl),
        (jstr "invoices_requested", .arr (r.invoices_requested.map Json.str)),
        (jstr "results", .arr (r.results.map invoiceResultToJson))]

/-- Map a fallible decoder over a list, failing when any element
fails. -/
def mapOpt (f : α → Option β) : List α → Option (List β)
  | [] => some []
  | x :: xs =>
    match f x, mapOpt f xs with
    | some y, some ys => some (y :: ys)
    | _, _ => none

/-- Decode a JSON string value. -/
def decodeStr : Json → Option JStr
  | .str s => some s
  | _ => none

/-- Decode a data field, expecting a string value. -/
def decodeDataField (kv : JStr × Json) : Option (JStr × JStr) :=
  match kv.2 with
  | .str v => some (kv.1, v)
  | _ => none

/-- Decode one per-identifier result from the envelope shape. -/
def invoiceResultFromJson (j : Json) : Option InvoiceResult :=
  match j with
  | .obj fs =>
    match (objLookup (jstr "invoice_number") fs).bind decodeStr,
        (objLookup (jstr "status") fs).bind decodeStr with
    | some n, some st =>
      if st = jstr "success" then
        match objLookup (jstr "data") fs with
        | some (.obj dfs) =>
          (mapOpt decodeDataField dfs).map (fun data => .success n data)
        | _ => none
      else if st = jstr "error" then
        (objLookup (jstr "error") fs).bind decodeStr |>.map (fun m => .failure n m)
      else none
    | _, _ => none
  | _ => none

/-- Decode a whole report from the serialized shape: the inverse reading
of `reportToJson`. -/
def reportFromJson (j : Json) : Option BatchReport :=
  match j with
  | .obj fs =>
    match (objLookup (jstr "timestamp") fs).bind decodeStr,
        (objLookup (jstr "apiUrl") fs).bind decodeStr,
        objLookup (jstr "invoices_requested") fs,
        objLookup (jstr "results") fs with
    | some ts, some url, some (.arr reqItems), some (.arr resItems) =>
      match mapOpt decodeStr reqItems, mapOpt invoiceResultFromJson resItems with
      | some req, some res => some ⟨ts, url, req, res⟩
      | _, _ => none
    | _, _, _, _ => none
  | _ => none

/-- The structured-form export of `exportJSON`:
`JSON.stringify(report, null, 2)`. -/
def exportJSONText (r : BatchReport) : JStr := printJson 0 (reportToJson r)

/-- Three requested identifiers for the reconciliation example of §8. -/
def sampleIds : List JStr := [jstr "A1", jstr "A2", jstr "A3"]

/-- A payload with three results — two successes and one error — for
the reconciliation example of §8. -/
def samplePayload3 : Json :=
  Json.obj [(jstr "results", Json.arr
    [Json.obj [(jstr "invoice_number", Json.str (jstr "A1")),
               (jstr "status", Json.str (jstr "success")),
               (jstr "data", Json.obj [])],
     Json.obj [(jstr "invoice_number", Json.str (jstr "A2")),
               (jstr "status", Json.str (jstr "success")),
               (jstr "data", Json.obj [])],
     Json.obj [(jstr "invoice_number", Json.str (jstr "A3")),
               (jstr "status", Json.str (jstr "error")),
               (jstr "error", Json.str (jstr "not found"))]])]

/- Helper lemmas. -/

/-- A list whose head fails the predicate is unchanged by
`dropWhile`. -/
theorem dropWhile_of_forall_neg {p : Char → Bool} {l : JStr}
    (h : ∀ c ∈ l, p c = false) : l.dropWhile p = l := by
  cases l with
  | nil => rfl
  | cons c cs => simp [List.dropWhile_cons, h c (List.mem_cons_self c cs)]

/-- Trimming a string with no whitespace at all leaves it unchanged. -/
theorem jsTrim_eq_self {t : JStr} (h : ∀ c ∈ t, jsWs c = false) :
    jsTrim t = t := by
  unfold jsTrim
  rw [dropWhile_of_forall_neg h,
    dropWhile_of_forall_neg (fun c hc => h c (List.mem_reverse.mp hc)),
    List.reverse_reverse]

/- Claim C2. -/

/-- C2: whenever the payload's `results` field is absent or is not an
array, reconciliation fails with the invalid-shape error and never
returns a summary. -/
theorem c2_invalid_shape_errors (data : Json)
    (h : ∀ items, resultsField data ≠ some (Json.arr items)) :
    displayReconcile data = .error .invalidShape ∧
      ∀ s, displayReconcile data ≠ .ok s := by
  have he : displayReconcile data = .error .invalidShape := by
    unfold displayReconcile
    split
    · rename_i items heq
      exact absurd heq (h items)
    · rfl
  exact ⟨he, by simp [he]⟩

/-- C2 witness: a payload with no `results` key at all. -/
theorem c2_invalid_shape_errors_witness :
    displayReconcile (Json.obj [(jstr "detail", Json.str (jstr "x"))])
        = .error .invalidShape ∧
      ∀ s, displayReconcile (Json.obj [(jstr "detail", Json.str (jstr "x"))])
        ≠ .ok s :=
  c2_invalid_shape_errors _ (by
    intro items h
    rw [show resultsField (Json.obj [(jstr "detail", Json.str (jstr "x"))])
        = none from rfl] at h
    exact Option.noConfusion h)

/- Claim C5. -/

/-- C5: the summary is computed from the results sequence alone —
`total` is its length, `successCount` the number of elements whose
status is `success`, `errorCount` their difference — and the §8 example
(three requested identifiers, three results, two successes) yields the
summary (3, 2, 1). -/
theorem c5_summary_counts :
    (∀ results : List Json,
      (summarize results).total = results.length ∧
      (summarize results).successCount = results.countP isSuccessResult ∧
      (summarize results).errorCount
          = results.length - results.countP isSuccessResult) ∧
    sampleIds.length = 3 ∧
    (checkInvoicesStep none sampleIds (jstr "https://e") (jstr "t0")
        (.response 200 [] (some samplePayload3))).2
      = .resultsShown ⟨3, 2, 1⟩ := by
  refine ⟨fun results => ⟨rfl, ?_, ?_⟩, by decide, by decide⟩
  · simp [summarize, List.countP_eq_length_filter]
  · simp [summarize, List.countP_eq_length_filter]

/- Claim C8. -/

/-- C8: a non-2xx response makes the verification call fail with the
typed error carrying the status code and the body text, and the run
issues exactly one fetch (no retry). -/
theorem c8_http_error_no_retry (fetches : Nat → FetchOutcome)
    (status : Nat) (body : JStr) (jb : Option Json)
    (h0 : fetches 0 = .response status body jb)
    (hok : responseOk status = false) :
    verifyWithTrace fetches = (.error (.remoteHttp status body), 1) := by
  simp [verifyWithTrace, verify, h0, hok]

/-- C8 witness: a 404 response with body `Not Found`. -/
theorem c8_http_error_no_retry_witness :
    responseOk 404 = false ∧
    verifyWithTrace (fun _ => .response 404 (jstr "Not Found") none)
      = (.error (.remoteHttp 404 (jstr "Not Found")), 1) :=
  ⟨by decide,
    c8_http_error_no_retry _ 404 (jstr "Not Found") none rfl (by decide)⟩

/- Claim C9. -/

/-- C9: the probe always returns a health value — a 2xx response marks
the endpoint reachable, and any other status or a transport failure
marks it unreachable with a non-empty detail string. -/
theorem c9_probe_health (out : FetchOutcome) :
    ((∃ st b jb, out = .response st b jb ∧ responseOk st = true) →
      (probe out).reachable = true) ∧
    ((∀ st b jb, out = .response st b jb → responseOk st = false) →
      (probe out).reachable = false ∧ (probe out).detail ≠ []) := by
  constructor
  · rintro ⟨st, b, jb, rfl, hok⟩
    simp [probe, hok]
  · intro h
    cases out with
    | transportFail m =>
      refine ⟨rfl, ?_⟩
      simp only [probe]
      intro hh
      rw [List.append_eq_nil] at hh
      exact absurd hh.1 (by decide)
    | response st b jb =>
      have hok := h st b jb rfl
      refine ⟨by simp [probe, hok], ?_⟩
      simp only [probe, hok, Bool.false_eq_true, if_false]
      intro hh
      rw [List.append_eq_nil] at hh
      exact absurd hh.1 (by decide)

/-- C9 witness: a transport failure yields an unreachable health value
with a non-empty detail. -/
theorem c9_probe_health_witness :
    (probe (.transportFail (jstr "net down"))).reachable = false ∧
      (probe (.transportFail (jstr "net down"))).detail ≠ [] :=
  (c9_probe_health (.transportFail (jstr "net down"))).2
    (by intro st b jb h; exact absurd h (by simp))

/- Claim C10. -/

/-- C10: after a successful parse the stored report is the merge of the
payload's top-level keys over the locally computed fields, and on a key
collision the payload's value wins: looking up `timestamp`, `apiUrl` or
`invoices_requested` in the stored report returns the payload's value
when the payload carries that key, and the locally computed value
otherwise. -/
theorem c10_payload_keys_override (ts url : JStr) (ids : List JStr)
    (extra : List (JStr × Json)) (prev : Option (List (JStr × Json)))
    (body : JStr) :
    (checkInvoicesStep prev ids url ts (.response 200 body (some (.obj extra)))).1
        = some (buildStoredReport ts url ids (.obj extra)) ∧
    objLookup (jstr "timestamp") (buildStoredReport ts url ids (.obj extra))
        = some ((objLookup (jstr "timestamp") extra).getD (.str ts)) ∧
    objLookup (jstr "apiUrl") (buildStoredReport ts url ids (.obj extra))
        = some ((objLookup (jstr "apiUrl") extra).getD (.str url)) ∧
    objLookup (jstr "invoices_requested") (buildStoredReport ts url ids (.obj extra))
        = some ((objLookup (jstr "invoices_requested") extra).getD
            (.arr (ids.map .str))) := by
  refine ⟨?_, ?_, ?_, ?_⟩
  · simp only [checkInvoicesStep, verify, responseOk]
    norm_num
    cases h : displayReconcile (.obj extra) <;> simp [h]
  · simp only [buildStoredReport, mergeSpread, jsonObjFields, List.map_cons,
      List.map_nil, List.cons_append, objLookup]
    rw [List.find?_cons_of_pos _ (by simp)]
    rfl
  · simp only [buildStoredReport, mergeSpread, jsonObjFields, List.map_cons,
      List.map_nil, List.cons_append, objLookup]
    rw [List.find?_cons_of_neg _
        (by simp [show (jstr "timestamp" == jstr "apiUrl") = false from by decide]),
      List.find?_cons_of_pos _ (by simp)]
    rfl
  · simp only [buildStoredReport, mergeSpread, jsonObjFields, List.map_cons,
      List.map_nil, List.cons_append, objLookup]
    rw [List.find?_cons_of_neg _
        (by simp [show (jstr "timestamp" == jstr "invoices_requested") = false from by decide]),
      List.find?_cons_of_neg _
        (by simp [show (jstr "apiUrl" == jstr "invoices_requested") = false from by decide]),
      List.find?_cons_of_pos _ (by simp)]
    rfl

/- Claim C3. -/

/-- C3 counterexample: with a stored report already present and a
well-formed HTTP 200 response whose JSON payload has no `results` key,
reconciliation fails with the invalid-shape error, yet the stored report
state has changed — `currentResults` is assigned before `displayResults`
validates the payload. -/
theorem c3_store_before_reconcile_counterexample :
    (checkInvoicesStep (some [(jstr "old", Json.null)]) [jstr "INV1"]
        (jstr "https://e") (jstr "t0")
        (.response 200 []
          (some (Json.obj [(jstr "detail", Json.str (jstr "oops"))])))).1
      ≠ some [(jstr "old", Json.null)] ∧
    displayReconcile (Json.obj [(jstr "detail", Json.str (jstr "oops"))])
      = .error .invalidShape := by
  exact ⟨by decide, by decide⟩

/-- C3 amended: the stored report is replaced exactly when the remote
response is fetched and parsed successfully — before reconciliation, so
a reconciliation failure still leaves the new report stored — and on any
transport, HTTP, or parse failure the stored state is unchanged. -/
theorem c3_store_follows_parse (prev : Option (List (JStr × Json)))
    (ids : List JStr) (url ts : JStr) (out : FetchOutcome) :
    (checkInvoicesStep prev ids url ts out).1 =
      (match verify out with
       | .ok payload => some (buildStoredReport ts url ids payload)
       | .error _ => prev) := by
  unfold checkInvoicesStep
  cases h : verify out with
  | error e => rfl
  | ok payload =>
    cases h2 : displayReconcile payload <;> simp [h2]

/- Claim C1. -/

/-- C1 does not hold of the code (code bug, §9 of the design): the
`Control Unit Invoice Number` cell is emitted without surrounding
quotes, and no cell doubles embedded quote characters.  A comma inside
that field, or a quote character inside `Supplier Name`, makes the
emitted row parse back to eleven fields instead of ten, and the
Supplier Name value is corrupted. -/
theorem c1_csv_escaping_defect :
    (csvParseLine (csvRow cuiCommaResult)).length = 11 ∧
    (csvParseLine (csvRow supplierQuoteResult)).length ≠ 10 ∧
    (csvParseLine (csvRow supplierQuoteResult)).getD 9 []
      ≠ jstr "ACME \"K\" LTD" := by
  exact ⟨by decide, by decide, by decide⟩

/- Claim C4. -/

/-- C4: the parser splits on newlines, trims, splits comma-containing
lines, flattens in order and drops empty strings: the §8 example parses
to exactly its four tokens, and no output element is ever the empty
string. -/
theorem c4_parse_example_and_no_empties :
    parseInvoiceNumbers (jstr "a\nb,c\n\nd")
        = [jstr "a", jstr "b", jstr "c", jstr "d"] ∧
    ∀ (raw s : JStr), s ∈ parseInvoiceNumbers raw → s ≠ [] := by
  refine ⟨by decide, ?_⟩
  intro raw s hs
  simp only [parseInvoiceNumbers] at hs
  have hp := List.of_mem_filter hs
  simp only [Bool.not_eq_true'] at hp
  intro he
  rw [he] at hp
  exact absurd hp (by decide)

/-- C4 witness: a single-token input. -/
theorem c4_parse_example_and_no_empties_witness :
    jstr "a" ∈ parseInvoiceNumbers (jstr "a") ∧ jstr "a" ≠ [] :=
  ⟨by decide, c4_parse_example_and_no_empties.2 (jstr "a") (jstr "a") (by decide)⟩

/- Claim C6: helper lemmas. -/

/-- Unfolding of an intercalation with two or more tokens. -/
theorem intercalate_two (x : Char) (a b : JStr) (l : List JStr) :
    List.intercalate [x] (a :: b :: l) = a ++ [x] ++ List.intercalate [x] (b :: l) := by
  simp [List.intercalate, List.intersperse_cons_cons, List.flatten_cons]

/-- An intercalation of a single token is that token. -/
theorem intercalate_one (x : Char) (a : JStr) : List.intercalate [x] [a] = a := by
  simp [List.intercalate]

/-- A map that fixes every element of a list fixes the list. -/
theorem map_eq_self_of {f : JStr → JStr} :
    ∀ {l : List JStr}, (∀ t ∈ l, f t = t) → l.map f = l := by
  intro l h
  induction l with
  | nil => rfl
  | cons t ts ih =>
    rw [List.map_cons, h t (List.mem_cons_self t ts),
      ih (fun u hu => h u (List.mem_cons_of_mem _ hu))]

/-- The last character of an intercalation of non-empty tokens without
whitespace is not whitespace. -/
theorem intercalate_reverse_head :
    ∀ ts : List JStr, ts ≠ [] →
      (∀ t ∈ ts, t ≠ [] ∧ ∀ c ∈ t, jsWs c = false) →
      ∃ c m, (List.intercalate ['\n'] ts).reverse = c :: m ∧ jsWs c = false := by
  intro ts
  induction ts with
  | nil => intro h; contradiction
  | cons t rest ih =>
    intro _ h
    have ht := h t (List.mem_cons_self _ _)
    cases rest with
    | nil =>
      rw [intercalate_one]
      cases hr : t.reverse with
      | nil =>
        rw [List.reverse_eq_nil_iff] at hr
        exact absurd hr ht.1
      | cons c m =>
        refine ⟨c, m, rfl, ht.2 c ?_⟩
        rw [← List.mem_reverse, hr]
        exact List.mem_cons_self _ _
    | cons r rs =>
      rw [intercalate_two]
      obtain ⟨c, m, hm, hc⟩ :=
        ih (by simp) (fun u hu => h u (List.mem_cons_of_mem _ hu))
      refine ⟨c, m ++ '\n' :: t.reverse, ?_, hc⟩
      rw [List.reverse_append, List.reverse_append, hm]
      simp

/-- Trimming an intercalation of non-empty whitespace-free tokens leaves
it unchanged. -/
theorem jsTrim_intercalate (ts : List JStr) (hne : ts ≠ [])
    (h : ∀ t ∈ ts, t ≠ [] ∧ ∀ c ∈ t, jsWs c = false) :
    jsTrim (List.intercalate ['\n'] ts) = List.intercalate ['\n'] ts := by
  obtain ⟨t, rest, rfl⟩ : ∃ a l, ts = a :: l := by
    cases ts with
    | nil => contradiction
    | cons a l => exact ⟨a, l, rfl⟩
  have ht := h t (List.mem_cons_self _ _)
  obtain ⟨c0, t', he⟩ : ∃ c0 t', t = c0 :: t' := by
    cases t with
    | nil => exact absurd rfl ht.1
    | cons c0 t' => exact ⟨c0, t', rfl⟩
  have hc0 : jsWs c0 = false := ht.2 c0 (by rw [he]; exact List.mem_cons_self _ _)
  have hhead : ∃ c m, List.intercalate ['\n'] (t :: rest) = c :: m ∧ jsWs c = false := by
    cases rest with
    | nil =>
      rw [intercalate_one, he]
      exact ⟨c0, t', rfl, hc0⟩
    | cons r rs =>
      rw [intercalate_two, he]
      exact ⟨c0, t' ++ ['\n'] ++ List.intercalate ['\n'] (r :: rs), by simp, hc0⟩
  obtain ⟨c, m, hm, hc⟩ := hhead
  obtain ⟨d, m2, hm2, hd⟩ := intercalate_reverse_head (t :: rest) (by simp) h
  have h1 : (List.intercalate ['\n'] (t :: rest)).dropWhile jsWs
      = List.intercalate ['\n'] (t :: rest) := by
    rw [hm]
    simp [List.dropWhile_cons, hc]
  have h2 : (List.intercalate ['\n'] (t :: rest)).reverse.dropWhile jsWs
      = (List.intercalate ['\n'] (t :: rest)).reverse := by
    rw [hm2]
    simp [List.dropWhile_cons, hd]
  unfold jsTrim
  rw [h1, h2, List.reverse_reverse]

/-- The accumulation loop of `parseInvoiceNumbers` appends each
non-empty comma-free line unchanged. -/
theorem parse_foldl_append :
    ∀ (ts acc : List JStr), (∀ t ∈ ts, t ≠ [] ∧ t.contains ',' = false) →
      ts.foldl (fun acc line =>
        if line.isEmpty then acc
        else if line.contains ',' then
          acc ++ ((line.splitOn ',').map jsTrim).filter (fun n => !n.isEmpty)
        else acc ++ [line]) acc = acc ++ ts := by
  intro ts
  induction ts with
  | nil => intro acc h; simp
  | cons t rest ih =>
    intro acc h
    have ht := h t (List.mem_cons_self _ _)
    have hie : t.isEmpty = false := List.isEmpty_eq_false.mpr ht.1
    simp only [List.foldl_cons, hie, ht.2, Bool.false_eq_true, if_false]
    rw [ih _ (fun u hu => h u (List.mem_cons_of_mem _ hu))]
    simp

/- Claim C6. -/

/-- C6: the parser performs no deduplication beyond dropping empty
strings — a newline-joined list of non-empty, whitespace-free,
comma-free tokens parses back to exactly that token list, duplicates
included, in input order. -/
theorem c6_no_dedup (ts : List JStr)
    (h : ∀ t ∈ ts, t ≠ [] ∧ (∀ c ∈ t, jsWs c = false) ∧ t.contains ',' = false) :
    parseInvoiceNumbers (List.intercalate ['\n'] ts) = ts := by
  cases ts with
  | nil => decide
  | cons t rest =>
    have h2 : ∀ u ∈ t :: rest, u ≠ [] ∧ ∀ c ∈ u, jsWs c = false :=
      fun u hu => ⟨(h u hu).1, (h u hu).2.1⟩
    simp only [parseInvoiceNumbers]
    rw [jsTrim_intercalate _ (by simp) h2]
    rw [show List.intercalate ['\n'] (t :: rest) = ['\n'].intercalate (t :: rest) from rfl]
    rw [List.splitOn_intercalate _ '\n'
      (by
        intro l hl hmem
        have := (h l hl).2.1 '\n' hmem
        exact absurd this (by decide))
      (by simp)]
    rw [map_eq_self_of (fun u hu => jsTrim_eq_self ((h2 u hu).2))]
    rw [parse_foldl_append _ [] (fun u hu => ⟨(h u hu).1, (h u hu).2.2⟩)]
    rw [List.nil_append]
    rw [List.filter_eq_self.mpr (fun a ha => by
      simp [List.isEmpty_eq_false.mpr (h a ha).1])]

/-- C6 witness: a duplicated token survives parsing twice. -/
theorem c6_no_dedup_witness :
    parseInvoiceNumbers (List.intercalate ['\n'] [jstr "X1", jstr "X1"])
      = [jstr "X1", jstr "X1"] :=
  c6_no_dedup [jstr "X1", jstr "X1"] (by decide)

/- Claim C7: string round trip. -/

/-- Hexadecimal digits decode back to their value. -/
theorem hexVal_hexDigitChar : ∀ n : Nat, n < 16 → hexVal (hexDigitChar n) = some n := by
  decide

/-- Unfolding of `escapeStr` on a cons. -/
theorem escapeStr_cons (c : Char) (s : JStr) :
    escapeStr (c :: s) = escapeChar c ++ escapeStr s := by
  simp [escapeStr]

/-- The string scan inverts the string serializer: parsing an escaped
body up to its closing quote recovers the original string and leaves the
trailing input untouched. -/
theorem parse_print_str : ∀ s rest : JStr,
    parseStrBody (escapeStr s ++ dqChar :: rest) = some (s, rest) := by
  intro s
  induction s with
  | nil =>
    intro rest
    rw [show escapeStr [] = [] from rfl, List.nil_append, parseStrBody.eq_def]
    dsimp only []
    rw [if_pos rfl]
  | cons c s ih =>
    intro rest
    rw [escapeStr_cons]
    by_cases h1 : c = dqChar
    · subst h1
      rw [show escapeChar dqChar = [bsChar, dqChar] from by rw [escapeChar, if_pos rfl]]
      simp only [List.cons_append, List.nil_append]
      rw [parseStrBody.eq_def]
      dsimp only []
      rw [if_neg (by decide), if_pos rfl, if_pos rfl, ih]
      rfl
    · by_cases h2 : c = bsChar
      · subst h2
        rw [show escapeChar bsChar = [bsChar, bsChar] from by
          rw [escapeChar, if_neg (by decide), if_pos rfl]]
        simp only [List.cons_append, List.nil_append]
        rw [parseStrBody.eq_def]
        dsimp only []
        rw [if_neg (by decide), if_pos rfl, if_neg (by decide), if_pos rfl, ih]
        rfl
      · by_cases h3 : c.toNat < 32
        · have hd1 : hexVal (hexDigitChar (c.toNat / 16)) = some (c.toNat / 16) :=
            hexVal_hexDigitChar _ (by omega)
          have hd2 : hexVal (hexDigitChar (c.toNat % 16)) = some (c.toNat % 16) :=
            hexVal_hexDigitChar _ (by omega)
          have hch : Char.ofNat (((0 * 16 + 0) * 16 + c.toNat / 16) * 16 + c.toNat % 16) = c := by
            rw [show ((0 * 16 + 0) * 16 + c.toNat / 16) * 16 + c.toNat % 16 = c.toNat by omega]
            exact Char.ofNat_toNat c
          rw [show escapeChar c = [bsChar, 'u', '0', '0',
              hexDigitChar (c.toNat / 16), hexDigitChar (c.toNat % 16)] from by
            rw [escapeChar, if_neg h1, if_neg h2, if_pos h3]]
          simp only [List.cons_append, List.nil_append]
          rw [parseStrBody.eq_def]
          dsimp only []
          rw [if_neg (by decide), if_pos rfl, if_neg (by decide), if_neg (by decide),
            if_pos rfl]
          rw [show hexVal '0' = some 0 from by decide, hd1, hd2]
          dsimp only []
          rw [ih, hch]
          rfl
        · rw [show escapeChar c = [c] from by
            rw [escapeChar, if_neg h1, if_neg h2, if_neg h3]]
          simp only [List.cons_append, List.nil_append]
          rw [parseStrBody.eq_def]
          dsimp only []
          rw [if_neg h1, if_neg h2, ih]
          rfl

/- Claim C7: whitespace and shape lemmas. -/

/-- Space runs consist of whitespace. -/
theorem spaces_ws : ∀ n : Nat, ∀ c ∈ spaces n, jsonWs c = true := by
  intro n
  induction n with
  | zero => intro c hc; cases hc
  | succ n ih =>
    intro c hc
    cases hc with
    | head => decide
    | tail _ h => exact ih c h

/-- Length of a space run. -/
theorem spaces_length : ∀ n : Nat, (spaces n).length = n := by
  intro n
  induction n with
  | zero => rfl
  | succ n ih => simp [spaces, ih]

/-- Skipping whitespace passes over an all-whitespace prefix. -/
theorem skipWs_ws_append : ∀ w s : JStr, (∀ c ∈ w, jsonWs c = true) →
    skipWs (w ++ s) = skipWs s := by
  intro w
  induction w with
  | nil => intro s h; rfl
  | cons c cs ih =>
    intro s h
    rw [List.cons_append, skipWs, List.dropWhile_cons,
      if_pos (h c (List.mem_cons_self _ _))]
    exact ih s (fun u hu => h u (List.mem_cons_of_mem _ hu))

/-- Skipping whitespace stops at a non-whitespace head. -/
theorem skipWs_cons_neg (c : Char) (s : JStr) (h : jsonWs c = false) :
    skipWs (c :: s) = c :: s := by
  rw [skipWs, List.dropWhile_cons]
  simp [h]

/-- Every serialized value begins with one of the six value-opening
characters. -/
theorem printJson_head (ind : Nat) (v : Json) :
    ∃ c t, printJson ind v = c :: t ∧
      (c = dqChar ∨ c = '[' ∨ c = lbChar ∨ c = 't' ∨ c = 'f' ∨ c = 'n') := by
  cases v with
  | str s =>
    exact ⟨dqChar, escapeStr s ++ [dqChar], by simp [printJson, printStr], Or.inl rfl⟩
  | bool b =>
    cases b with
    | true => exact ⟨'t', jstr "rue", by simp [printJson]; decide, by simp⟩
    | false => exact ⟨'f', jstr "alse", by simp [printJson]; decide, by simp⟩
  | null => exact ⟨'n', jstr "ull", by simp [printJson]; decide, by simp⟩
  | arr items =>
    cases items with
    | nil => exact ⟨'[', [']'], by simp [printJson]; decide, by simp⟩
    | cons x xs =>
      exact ⟨'[', '\n' :: (printArrItems (ind + 2) x xs ++ '\n' :: (spaces ind ++ [']'])),
        by simp [printJson], by simp⟩
  | obj fields =>
    cases fields with
    | nil => exact ⟨lbChar, [rbChar], by simp [printJson], by simp⟩
    | cons kv kvs =>
      exact ⟨lbChar, '\n' :: (printObjItems (ind + 2) kv kvs ++ '\n' :: (spaces ind ++ [rbChar])),
        by simp [printJson], by simp⟩

/-- A value-opening character is not whitespace, not a separator, and
not a closing token. -/
theorem head_char_shape {c : Char}
    (h : c = dqChar ∨ c = '[' ∨ c = lbChar ∨ c = 't' ∨ c = 'f' ∨ c = 'n') :
    jsonWs c = false ∧ c ≠ ']' ∧ c ≠ rbChar ∧ c ≠ ',' := by
  rcases h with rfl | rfl | rfl | rfl | rfl | rfl <;> refine ⟨by decide, by decide, by decide, by decide⟩

/-- Structural induction for the nested `Json` type with membership
hypotheses for array items and object field values. -/
theorem jsonRecOn {P : Json → Prop}
    (hstr : ∀ s, P (.str s)) (hbool : ∀ b, P (.bool b)) (hnull : P .null)
    (harr : ∀ items, (∀ v ∈ items, P v) → P (.arr items))
    (hobj : ∀ fields, (∀ kv ∈ fields, P kv.2) → P (.obj fields)) :
    ∀ v, P v := by
  have key : ∀ n v, sizeOf v ≤ n → P v := by
    intro n
    induction n with
    | zero =>
      intro v h
      exfalso
      cases v <;> simp at h
    | succ n ih =>
      intro v h
      cases v with
      | str s => exact hstr s
      | bool b => exact hbool b
      | null => exact hnull
      | arr items =>
        refine harr items (fun u hu => ih u ?_)
        have h1 := List.sizeOf_lt_of_mem hu
        simp at h
        omega
      | obj fields =>
        refine hobj fields (fun kv hkv => ih kv.2 ?_)
        have h1 := List.sizeOf_lt_of_mem hkv
        have h2 : sizeOf kv.2 < sizeOf kv := by
          cases kv with
          | mk a b =>
            simp only [Prod.mk.sizeOf_spec]
            omega
        simp at h
        omega
  exact fun v => key (sizeOf v) v le_rfl

/-- Membership in an append of two all-whitespace strings. -/
theorem ws_forall_append {a b : JStr} (ha : ∀ c ∈ a, jsonWs c = true)
    (hb : ∀ c ∈ b, jsonWs c = true) : ∀ c ∈ a ++ b, jsonWs c = true := by
  intro c hc
  rcases List.mem_append.mp hc with h | h
  · exact ha c h
  · exact hb c h

/-- The item scan inverts the array-items serializer: given that every
item round-trips through `parseValue`, the comma-separated rendering of
a non-empty item list followed by whitespace and the closing bracket
parses back to the item list. -/
theorem parseArrItems_print : ∀ (xs : List Json) (x : Json),
    (∀ v ∈ x :: xs, ∀ (ind : Nat) (w rest : JStr) (fuel : Nat),
      (∀ c ∈ w, jsonWs c = true) →
      2 * (w.length + (printJson ind v).length) + 1 ≤ fuel →
      parseValue fuel (w ++ (printJson ind v ++ rest)) = some (v, rest)) →
    ∀ (ind : Nat) (w tail rest : JStr) (fuel : Nat),
      (∀ c ∈ w, jsonWs c = true) → (∀ c ∈ tail, jsonWs c = true) →
      2 * (w.length + (printArrItems ind x xs).length + tail.length + 1) + 1 ≤ fuel →
      parseArrItems fuel (w ++ (printArrItems ind x xs ++ (tail ++ ']' :: rest)))
        = some (x :: xs, rest) := by
  intro xs
  induction xs with
  | nil =>
    intro x IH ind w tail rest fuel hw htail hf
    rw [show printArrItems ind x [] = spaces ind ++ printJson ind x from by
      simp [printArrItems]] at hf ⊢
    simp only [List.length_append, spaces_length] at hf
    cases fuel with
    | zero => exact absurd hf (by omega)
    | succ f =>
      have hv := IH x (List.mem_cons_self _ _) ind (w ++ spaces ind)
        (tail ++ ']' :: rest) f
        (ws_forall_append hw (spaces_ws ind))
        (by simp only [List.length_append, spaces_length]; omega)
      simp only [List.append_assoc] at hv ⊢
      simp only [parseArrItems]
      rw [hv]
      dsimp only []
      rw [skipWs_ws_append _ _ htail, skipWs_cons_neg _ _ (by decide)]
      dsimp only []
      rw [if_neg (by decide), if_pos rfl]
  | cons y ys ih =>
    intro x IH ind w tail rest fuel hw htail hf
    rw [show printArrItems ind x (y :: ys)
        = spaces ind ++ (printJson ind x ++ ',' :: '\n' :: printArrItems ind y ys) from by
      simp [printArrItems]] at hf ⊢
    simp only [List.length_append, List.length_cons, spaces_length] at hf
    cases fuel with
    | zero => exact absurd hf (by omega)
    | succ f =>
      have hv := IH x (List.mem_cons_self _ _) ind (w ++ spaces ind)
        (',' :: '\n' :: (printArrItems ind y ys ++ (tail ++ ']' :: rest))) f
        (ws_forall_append hw (spaces_ws ind))
        (by simp only [List.length_append, spaces_length]; omega)
      have hrec := ih y
        (fun v hv2 => IH v (List.mem_cons_of_mem _ hv2))
        ind ['\n'] tail rest f
        (by intro c hc; cases hc with
          | head => decide
          | tail _ hh => cases hh)
        htail
        (by simp only [List.length_cons, List.length_nil]; omega)
      simp only [List.append_assoc, List.cons_append, List.nil_append] at hv hrec ⊢
      simp only [parseArrItems]
      rw [hv]
      dsimp only []
      rw [skipWs_cons_neg _ _ (by decide)]
      dsimp only []
      rw [if_pos rfl]
      rw [hrec]

/-- The member scan inverts the object-members serializer: given that
every field value round-trips through `parseValue`, the rendering of a
non-empty member list followed by whitespace and the closing brace
parses back to the member list. -/
theorem parseObjItems_print : ∀ (kvs : List (JStr × Json)) (kv : JStr × Json),
    (∀ u ∈ kv :: kvs, ∀ (ind : Nat) (w rest : JStr) (fuel : Nat),
      (∀ c ∈ w, jsonWs c = true) →
      2 * (w.length + (printJson ind u.2).length) + 1 ≤ fuel →
      parseValue fuel (w ++ (printJson ind u.2 ++ rest)) = some (u.2, rest)) →
    ∀ (ind : Nat) (w tail rest : JStr) (fuel : Nat),
      (∀ c ∈ w, jsonWs c = true) → (∀ c ∈ tail, jsonWs c = true) →
      2 * (w.length + (printObjItems ind kv kvs).length + tail.length + 1) + 1 ≤ fuel →
      parseObjItems fuel (w ++ (printObjItems ind kv kvs ++ (tail ++ rbChar :: rest)))
        = some (kv :: kvs, rest) := by
  intro kvs
  induction kvs with
  | nil =>
    rintro ⟨k, v⟩ IH ind w tail rest fuel hw htail hf
    rw [show printObjItems ind (k, v) []
        = spaces ind ++ (printStr k ++ ':' :: ' ' :: printJson ind v) from by
      simp [printObjItems]] at hf ⊢
    simp only [printStr, List.length_append, List.length_cons, spaces_length] at hf
    cases fuel with
    | zero => exact absurd hf (by omega)
    | succ f =>
      have hv := IH (k, v) (List.mem_cons_self _ _) ind [' ']
        (tail ++ rbChar :: rest) f
        (by intro c hc; cases hc with
          | head => decide
          | tail _ hh => cases hh)
        (by simp only [List.length_cons, List.length_nil]; omega)
      simp only [printStr, List.append_assoc, List.cons_append, List.nil_append] at hv ⊢
      simp only [parseObjItems]
      rw [skipWs_ws_append _ _ hw, skipWs_ws_append _ _ (spaces_ws ind),
        skipWs_cons_neg _ _ (by decide)]
      dsimp only []
      rw [if_pos rfl]
      rw [parse_print_str]
      dsimp only []
      rw [skipWs_cons_neg _ _ (by decide)]
      dsimp only []
      rw [if_pos rfl]
      rw [hv]
      dsimp only []
      rw [skipWs_ws_append _ _ htail, skipWs_cons_neg _ _ (by decide)]
      dsimp only []
      rw [if_neg (by decide), if_pos rfl]
  | cons y ys ih =>
    rintro ⟨k, v⟩ IH ind w tail rest fuel hw htail hf
    rw [show printObjItems ind (k, v) (y :: ys)
        = spaces ind ++ (printStr k ++ ':' :: ' ' ::
            (printJson ind v ++ ',' :: '\n' :: printObjItems ind y ys)) from by
      simp [printObjItems]] at hf ⊢
    simp only [printStr, List.length_append, List.length_cons, spaces_length] at hf
    cases fuel with
    | zero => exact absurd hf (by omega)
    | succ f =>
      have hv := IH (k, v) (List.mem_cons_self _ _) ind [' ']
        (',' :: '\n' :: (printObjItems ind y ys ++ (tail ++ rbChar :: rest))) f
        (by intro c hc; cases hc with
          | head => decide
          | tail _ hh => cases hh)
        (by simp only [List.length_cons, List.length_nil]; omega)
      have hrec := ih y
        (fun u hu => IH u (List.mem_cons_of_mem _ hu))
        ind ['\n'] tail rest f
        (by intro c hc; cases hc with
          | head => decide
          | tail _ hh => cases hh)
        htail
        (by simp only [List.length_cons, List.length_nil]; omega)
      simp only [printStr, List.append_assoc, List.cons_append, List.nil_append]
        at hv hrec ⊢
      simp only [parseObjItems]
      rw [skipWs_ws_append _ _ hw, skipWs_ws_append _ _ (spaces_ws ind),
        skipWs_cons_neg _ _ (by decide)]
      dsimp only []
      rw [if_pos rfl]
      rw [parse_print_str]
      dsimp only []
      rw [skipWs_cons_neg _ _ (by decide)]
      dsimp only []
      rw [if_pos rfl]
      rw [hv]
      dsimp only []
      rw [skipWs_cons_neg _ _ (by decide)]
      dsimp only []
      rw [if_pos rfl]
      rw [hrec]

/-- Both arms of the array-items serializer start with the indentation
followed by the first item's rendering. -/
theorem printArrItems_shape (ind : Nat) (x : Json) (xs : List Json) :
    ∃ suf, printArrItems ind x xs = spaces ind ++ (printJson ind x ++ suf) := by
  cases xs with
  | nil => exact ⟨[], by simp [printArrItems]⟩
  | cons y ys =>
    exact ⟨',' :: '\n' :: printArrItems ind y ys, by simp [printArrItems]⟩

/-- Both arms of the object-members serializer start with the
indentation followed by a quote character. -/
theorem printObjItems_shape (ind : Nat) (kv : JStr × Json) (kvs : List (JStr × Json)) :
    ∃ suf, printObjItems ind kv kvs = spaces ind ++ (dqChar :: suf) := by
  obtain ⟨k, v⟩ := kv
  cases kvs with
  | nil =>
    refine ⟨escapeStr k ++ ([dqChar] ++ (':' :: ' ' :: printJson ind v)), ?_⟩
    simp [printObjItems, printStr]
  | cons y ys =>
    refine ⟨escapeStr k ++ ([dqChar] ++ (':' :: ' ' ::
      (printJson ind v ++ ',' :: '\n' :: printObjItems ind y ys))), ?_⟩
    simp [printObjItems, printStr]

/-- The value scan inverts the serializer: a printed value followed by
arbitrary trailing input parses back to that value, for any
all-whitespace prefix and any sufficient fuel. -/
theorem parse_print_value : ∀ (v : Json) (ind : Nat) (w rest : JStr) (fuel : Nat),
    (∀ c ∈ w, jsonWs c = true) →
    2 * (w.length + (printJson ind v).length) + 1 ≤ fuel →
    parseValue fuel (w ++ (printJson ind v ++ rest)) = some (v, rest) := by
  intro v
  induction v using jsonRecOn with
  | hstr s =>
    intro ind w rest fuel hw hf
    rw [show printJson ind (Json.str s) = dqChar :: (escapeStr s ++ [dqChar]) from by
      simp [printJson, printStr]] at hf ⊢
    cases fuel with
    | zero => exact absurd hf (by omega)
    | succ f =>
      simp only [List.append_assoc, List.cons_append, List.nil_append]
      simp only [parseValue]
      rw [skipWs_ws_append _ _ hw, skipWs_cons_neg _ _ (by decide)]
      dsimp only []
      rw [if_pos rfl, parse_print_str]
      rfl
  | hbool b =>
    intro ind w rest fuel hw hf
    cases b with
    | true =>
      rw [show printJson ind (Json.bool true) = 't' :: 'r' :: 'u' :: 'e' :: [] from by
        simp [printJson]; decide] at hf ⊢
      cases fuel with
      | zero => exact absurd hf (by omega)
      | succ f =>
        simp only [List.append_assoc, List.cons_append, List.nil_append]
        simp only [parseValue]
        rw [skipWs_ws_append _ _ hw, skipWs_cons_neg _ _ (by decide)]
        dsimp only []
        rw [if_neg (by decide), if_neg (by decide), if_neg (by decide)]
        rfl
    | false =>
      rw [show printJson ind (Json.bool false) = 'f' :: 'a' :: 'l' :: 's' :: 'e' :: [] from by
        simp [printJson]; decide] at hf ⊢
      cases fuel with
      | zero => exact absurd hf (by omega)
      | succ f =>
        simp only [List.append_assoc, List.cons_append, List.nil_append]
        simp only [parseValue]
        rw [skipWs_ws_append _ _ hw, skipWs_cons_neg _ _ (by decide)]
        dsimp only []
        rw [if_neg (by decide), if_neg (by decide), if_neg (by decide)]
        rfl
  | hnull =>
    intro ind w rest fuel hw hf
    rw [show printJson ind Json.null = 'n' :: 'u' :: 'l' :: 'l' :: [] from by
      simp [printJson]; decide] at hf ⊢
    cases fuel with
    | zero => exact absurd hf (by omega)
    | succ f =>
      simp only [List.append_assoc, List.cons_append, List.nil_append]
      simp only [parseValue]
      rw [skipWs_ws_append _ _ hw, skipWs_cons_neg _ _ (by decide)]
      dsimp only []
      rw [if_neg (by decide), if_neg (by decide), if_neg (by decide)]
      rfl
  | harr items hitems =>
    intro ind w rest fuel hw hf
    cases items with
    | nil =>
      rw [show printJson ind (Json.arr []) = '[' :: ']' :: [] from by
        simp [printJson]; decide] at hf ⊢
      cases fuel with
      | zero => exact absurd hf (by omega)
      | succ f =>
        simp only [List.append_assoc, List.cons_append, List.nil_append]
        simp only [parseValue]
        rw [skipWs_ws_append _ _ hw, skipWs_cons_neg _ _ (by decide)]
        dsimp only []
        rw [if_neg (by decide), if_pos rfl]
        rw [skipWs_cons_neg _ _ (by decide)]
        dsimp only []
        rw [if_pos rfl]
    | cons x xs =>
      rw [show printJson ind (Json.arr (x :: xs))
          = '[' :: '\n' :: (printArrItems (ind + 2) x xs ++ '\n' :: (spaces ind ++ [']'])) from by
        simp [printJson]] at hf ⊢
      simp only [List.length_append, List.length_cons, List.length_nil, spaces_length] at hf
      cases fuel with
      | zero => exact absurd hf (by omega)
      | succ f =>
        obtain ⟨c0, t0, hx0, hx0set⟩ := printJson_head (ind + 2) x
        obtain ⟨hx0ws, hx0rb, hx0rb2, hx0comma⟩ := head_char_shape hx0set
        obtain ⟨suf, hsuf⟩ := printArrItems_shape (ind + 2) x xs
        have harrItems := parseArrItems_print xs x hitems (ind + 2) ['\n']
          ('\n' :: spaces ind) rest f
          (by intro c hc; cases hc with
            | head => decide
            | tail _ hh => cases hh)
          (by intro c hc; cases hc with
            | head => decide
            | tail _ hh => exact spaces_ws ind c hh)
          (by simp only [List.length_cons, List.length_nil, spaces_length]; omega)
        simp only [List.append_assoc, List.cons_append, List.nil_append] at harrItems ⊢
        simp only [parseValue]
        rw [skipWs_ws_append _ _ hw, skipWs_cons_neg _ _ (by decide)]
        dsimp only []
        rw [if_neg (by decide), if_pos rfl]
        have hY : skipWs ('\n' :: (printArrItems (ind + 2) x xs ++
            ('\n' :: (spaces ind ++ (']' :: rest)))))
            = c0 :: (t0 ++ (suf ++ ('\n' :: (spaces ind ++ (']' :: rest))))) := by
          rw [hsuf, hx0]
          rw [show '\n' :: ((spaces (ind + 2) ++ (c0 :: t0 ++ suf)) ++
              ('\n' :: (spaces ind ++ (']' :: rest))))
              = ('\n' :: spaces (ind + 2)) ++
                (c0 :: (t0 ++ (suf ++ ('\n' :: (spaces ind ++ (']' :: rest)))))) from by
            simp]
          rw [skipWs_ws_append _ _
            (by intro c hc; cases hc with
              | head => decide
              | tail _ hh => exact spaces_ws (ind + 2) c hh),
            skipWs_cons_neg _ _ hx0ws]
        rw [hY]
        dsimp only []
        rw [if_neg hx0rb]
        rw [harrItems]
        rfl
  | hobj fields hfields =>
    intro ind w rest fuel hw hf
    cases fields with
    | nil =>
      rw [show printJson ind (Json.obj []) = lbChar :: rbChar :: [] from by
        simp [printJson]] at hf ⊢
      cases fuel with
      | zero => exact absurd hf (by omega)
      | succ f =>
        simp only [List.append_assoc, List.cons_append, List.nil_append]
        simp only [parseValue]
        rw [skipWs_ws_append _ _ hw, skipWs_cons_neg _ _ (by decide)]
        dsimp only []
        rw [if_neg (by decide), if_neg (by decide), if_pos rfl]
        rw [skipWs_cons_neg _ _ (by decide)]
        dsimp only []
        rw [if_pos rfl]
    | cons kv kvs =>
      rw [show printJson ind (Json.obj (kv :: kvs))
          = lbChar :: '\n' :: (printObjItems (ind + 2) kv kvs ++ '\n' :: (spaces ind ++ [rbChar])) from by
        simp [printJson]] at hf ⊢
      simp only [List.length_append, List.length_cons, List.length_nil, spaces_length] at hf
      cases fuel with
      | zero => exact absurd hf (by omega)
      | succ f =>
        obtain ⟨suf, hsuf⟩ := printObjItems_shape (ind + 2) kv kvs
        have hobjItems := parseObjItems_print kvs kv hfields (ind + 2) ['\n']
          ('\n' :: spaces ind) rest f
          (by intro c hc; cases hc with
            | head => decide
            | tail _ hh => cases hh)
          (by intro c hc; cases hc with
            | head => decide
            | tail _ hh => exact spaces_ws ind c hh)
          (by simp only [List.length_cons, List.length_nil, spaces_length]; omega)
        simp only [List.append_assoc, List.cons_append, List.nil_append] at hobjItems ⊢
        simp only [parseValue]
        rw [skipWs_ws_append _ _ hw, skipWs_cons_neg _ _ (by decide)]
        dsimp only []
        rw [if_neg (by decide), if_neg (by decide), if_pos rfl]
        have hY : skipWs ('\n' :: (printObjItems (ind + 2) kv kvs ++
            ('\n' :: (spaces ind ++ (rbChar :: rest)))))
            = dqChar :: (suf ++ ('\n' :: (spaces ind ++ (rbChar :: rest)))) := by
          rw [hsuf]
          rw [show '\n' :: ((spaces (ind + 2) ++ (dqChar :: suf)) ++
              ('\n' :: (spaces ind ++ (rbChar :: rest))))
              = ('\n' :: spaces (ind + 2)) ++
                (dqChar :: (suf ++ ('\n' :: (spaces ind ++ (rbChar :: rest))))) from by
            simp]
          rw [skipWs_ws_append _ _
            (by intro c hc; cases hc with
              | head => decide
              | tail _ hh => exact spaces_ws (ind + 2) c hh),
            skipWs_cons_neg _ _ (by decide)]
        rw [hY]
        dsimp only []
        rw [if_neg (by decide)]
        rw [hobjItems]
        rfl

/-- A complete serialized document parses back to its value. -/
theorem parseJson_print (v : Json) : parseJson (printJson 0 v) = some v := by
  have h := parse_print_value v 0 [] [] (2 * (printJson 0 v).length + 2)
    (by intro c hc; cases hc) (by simp only [List.length_nil]; omega)
  simp only [List.nil_append, List.append_nil] at h
  simp only [parseJson]
  rw [h]
  rfl

/-- A fallible map over an encoded list succeeds elementwise. -/
theorem mapOpt_map {α β : Type} (f : β → Option α) (g : α → β) :
    ∀ l : List α, (∀ x ∈ l, f (g x) = some x) → mapOpt f (l.map g) = some l := by
  intro l
  induction l with
  | nil => intro h; rfl
  | cons x xs ih =>
    intro h
    simp only [List.map_cons, mapOpt]
    rw [h x (List.mem_cons_self _ _), ih (fun u hu => h u (List.mem_cons_of_mem _ hu))]

/-- Decoding an encoded per-identifier result recovers it. -/
theorem invoiceResult_fromJson_toJson (r : InvoiceResult) :
    invoiceResultFromJson (invoiceResultToJson r) = some r := by
  cases r with
  | success n data =>
    simp only [invoiceResultToJson, invoiceResultFromJson]
    rw [show objLookup (jstr "invoice_number")
        [(jstr "invoice_number", Json.str n), (jstr "status", Json.str (jstr "success")),
         (jstr "data", Json.obj (data.map (fun kv => (kv.1, Json.str kv.2))))]
        = some (Json.str n) from by
      rw [objLookup, List.find?_cons_of_pos _ (by simp)]; rfl]
    rw [show objLookup (jstr "status")
        [(jstr "invoice_number", Json.str n), (jstr "status", Json.str (jstr "success")),
         (jstr "data", Json.obj (data.map (fun kv => (kv.1, Json.str kv.2))))]
        = some (Json.str (jstr "success")) from by
      rw [objLookup,
        List.find?_cons_of_neg _
          (by simp [show (jstr "invoice_number" == jstr "status") = false from by decide]),
        List.find?_cons_of_pos _ (by simp)]; rfl]
    rw [show objLookup (jstr "data")
        [(jstr "invoice_number", Json.str n), (jstr "status", Json.str (jstr "success")),
         (jstr "data", Json.obj (data.map (fun kv => (kv.1, Json.str kv.2))))]
        = some (Json.obj (data.map (fun kv => (kv.1, Json.str kv.2)))) from by
      rw [objLookup,
        List.find?_cons_of_neg _
          (by simp [show (jstr "invoice_number" == jstr "data") = false from by decide]),
        List.find?_cons_of_neg _
          (by simp [show (jstr "status" == jstr "data") = false from by decide]),
        List.find?_cons_of_pos _ (by simp)]; rfl]
    dsimp only [Option.bind, decodeStr]
    rw [if_pos rfl]
    rw [mapOpt_map decodeDataField (fun kv => (kv.1, Json.str kv.2)) data
      (fun kv _ => rfl)]
    rfl
  | failure n msg =>
    simp only [invoiceResultToJson, invoiceResultFromJson]
    rw [show objLookup (jstr "invoice_number")
        [(jstr "invoice_number", Json.str n), (jstr "status", Json.str (jstr "error")),
         (jstr "error", Json.str msg)]
        = some (Json.str n) from by
      rw [objLookup, List.find?_cons_of_pos _ (by simp)]; rfl]
    rw [show objLookup (jstr "status")
        [(jstr "invoice_number", Json.str n), (jstr "status", Json.str (jstr "error")),
         (jstr "error", Json.str msg)]
        = some (Json.str (jstr "error")) from by
      rw [objLookup,
        List.find?_cons_of_neg _
          (by simp [show (jstr "invoice_number" == jstr "status") = false from by decide]),
        List.find?_cons_of_pos _ (by simp)]; rfl]
    rw [show objLookup (jstr "error")
        [(jstr "invoice_number", Json.str n), (jstr "status", Json.str (jstr "error")),
         (jstr "error", Json.str msg)]
        = some (Json.str msg) from by
      rw [objLookup,
        List.find?_cons_of_neg _
          (by simp [show (jstr "invoice_number" == jstr "error") = false from by decide]),
        List.find?_cons_of_neg _
          (by simp [show (jstr "status" == jstr "error") = false from by decide]),
        List.find?_cons_of_pos _ (by simp)]; rfl]
    dsimp only [Option.bind, decodeStr]
    rw [if_neg (by decide), if_pos rfl]
    rfl

/-- Decoding an encoded report recovers it. -/
theorem report_fromJson_toJson (r : BatchReport) :
    reportFromJson (reportToJson r) = some r := by
  obtain ⟨ts, url, req, res⟩ := r
  simp only [reportToJson, reportFromJson]
  rw [show objLookup (jstr "timestamp")
      [(jstr "timestamp", Json.str ts), (jstr "apiUrl", Json.str url),
       (jstr "invoices_requested", Json.arr (req.map Json.str)),
       (jstr "results", Json.arr (res.map invoiceResultToJson))]
      = some (Json.str ts) from by
    rw [objLookup, List.find?_cons_of_pos _ (by simp)]; rfl]
  rw [show objLookup (jstr "apiUrl")
      [(jstr "timestamp", Json.str ts), (jstr "apiUrl", Json.str url),
       (jstr "invoices_requested", Json.arr (req.map Json.str)),
       (jstr "results", Json.arr (res.map invoiceResultToJson))]
      = some (Json.str url) from by
    rw [objLookup,
      List.find?_cons_of_neg _
        (by simp [show (jstr "timestamp" == jstr "apiUrl") = false from by decide]),
      List.find?_cons_of_pos _ (by simp)]; rfl]
  rw [show objLookup (jstr "invoices_requested")
      [(jstr "timestamp", Json.str ts), (jstr "apiUrl", Json.str url),
       (jstr "invoices_requested", Json.arr (req.map Json.str)),
       (jstr "results", Json.arr (res.map invoiceResultToJson))]
      = some (Json.arr (req.map Json.str)) from by
    rw [objLookup,
      List.find?_cons_of_neg _
        (by simp [show (jstr "timestamp" == jstr "invoices_requested") = false from by decide]),
      List.find?_cons_of_neg _
        (by simp [show (jstr "apiUrl" == jstr "invoices_requested") = false from by decide]),
      List.find?_cons_of_pos _ (by simp)]; rfl]
  rw [show objLookup (jstr "results")
      [(jstr "timestamp", Json.str ts), (jstr "apiUrl", Json.str url),
       (jstr "invoices_requested", Json.arr (req.map Json.str)),
       (jstr "results", Json.arr (res.map invoiceResultToJson))]
      = some (Json.arr (res.map invoiceResultToJson)) from by
    rw [objLookup,
      List.find?_cons_of_neg _
        (by simp [show (jstr "timestamp" == jstr "results") = false from by decide]),
      List.find?_cons_of_neg _
        (by simp [show (jstr "apiUrl" == jstr "results") = false from by decide]),
      List.find?_cons_of_neg _
        (by simp [show (jstr "invoices_requested" == jstr "results") = false from by decide]),
      List.find?_cons_of_pos _ (by simp)]; rfl]
  dsimp only [Option.bind, decodeStr]
  rw [mapOpt_map decodeStr Json.str req (fun x _ => rfl)]
  rw [mapOpt_map invoiceResultFromJson invoiceResultToJson res
    (fun x _ => invoiceResult_fromJson_toJson x)]

/- Claim C7. -/

/-- C7: serializing a completed BatchReport to the structured form and
re-parsing the serialized text reproduces an equivalent BatchReport —
the round trip loses no field or value. -/
theorem c7_structured_roundtrip (r : BatchReport) :
    (parseJson (exportJSONText r)).bind reportFromJson = some r := by
  simp only [exportJSONText]
  rw [parseJson_print]
  exact report_fromJson_toJson r
